import Mathlib

/-!
Verification of the core of the Data Update Manager (src/app.py).

The program ingests tabular exports, derives a period marker (month,
quarter, year) from the uploaded filename, reconciles the upload's
columns against a destination worksheet's header row, and synchronizes
the result into the worksheet either by full overwrite or by append.

The shallow embedding below models:
  * pandas DataFrames as ordered lists of named columns of cells
    (`Table`); a missing value (NaN) is the cell `Cell.na`;
  * a Google Sheets worksheet as its `get_all_values()` matrix, a list
    of rows of strings;
  * `set_with_dataframe(ws, df, row=r, include_column_header=b)` as an
    overlay of the serialized block onto the row matrix anchored at the
    1-based row `r` (`writeAt`, 0-based anchor), which is exactly the
    cell rectangle the library updates;
  * the two `re.search` patterns of the filename extractors.  Both
    patterns consist of fixed-length pieces (the only variable part is
    the optional final `v` of `\.csv?$`), so `re.search` is equivalent
    to a scan for the leftmost matching start position (Grammar A) and,
    for Grammar B (anchored with `$`), to a suffix test performed after
    stripping one trailing newline if present: Python's `$` (without
    MULTILINE) matches at the end of the string or just before a single
    newline that ends it, and the pattern itself can never consume that
    newline (its last character is `s` or `v`).
-/

namespace EngineUS

/-- A spreadsheet cell as pandas sees it before serialization: a missing
value (NaN), a string, or an integer (the Month/Quarter scalars). -/
inductive Cell where
  | na : Cell
  | str : String → Cell
  | int : Int → Cell
deriving DecidableEq, Repr

/-- A pandas DataFrame: an ordered list of named columns, each an ordered
list of cells.  Well-formed tables have all columns of equal length. -/
structure Table where
  cols : List (String × List Cell)
deriving DecidableEq, Repr

/-- The column names of a table, in order (`df.columns`). -/
def colNames (t : Table) : List String := t.cols.map Prod.fst

/-- The number of rows of a table (`len(df)`), read off the first column. -/
def height (t : Table) : Nat :=
  match t.cols with
  | [] => 0
  | c :: _ => c.2.length

/-- `df[name]`: the values of the (first) column called `name`. -/
def getCol (t : Table) (name : String) : List Cell :=
  match t.cols.find? (fun c => c.1 == name) with
  | some c => c.2
  | none => []

/-- `fillna("")` on one cell: NaN becomes the empty string. -/
def fillnaCell : Cell → Cell
  | Cell.na => Cell.str ""
  | c => c

/-- `fillna("")` on one column. -/
def fillnaVals (vs : List Cell) : List Cell := vs.map fillnaCell

/-- `df.fillna("")`. -/
def tfillna (t : Table) : Table := ⟨t.cols.map (fun c => (c.1, fillnaVals c.2))⟩

/-- Serialization of a cell by `set_with_dataframe`: NaN is written as
the empty string, numbers via their decimal representation. -/
def cellToString : Cell → String
  | Cell.na => ""
  | Cell.str s => s
  | Cell.int n => toString n

/-- The header row written for a table: its column names. -/
def headerRow (t : Table) : List String := colNames t

/-- The serialized data rows of a table (row-major transpose). -/
def tableRows (t : Table) : List (List String) :=
  (List.range (height t)).map (fun i => t.cols.map (fun c => cellToString (c.2.getD i Cell.na)))

/-- Overlaying one written row onto an existing sheet row: the written
cells replace the leftmost cells, cells to the right are untouched. -/
def overlayRow (old new : List String) : List String := new ++ old.drop new.length

/-- Overlaying a block of written rows onto the sheet rows starting at
the first row; rows of the sheet below the block are untouched. -/
def overlayBlock (ws block : List (List String)) : List (List String) :=
  match block with
  | [] => ws
  | b :: bs => overlayRow (ws.headD []) b :: overlayBlock ws.tail bs

/-- `set_with_dataframe`'s effect on the row matrix: overlay `block`
onto `ws` anchored at 0-based row `start` (rows above and below the
block, and cells to the right of it, are untouched; missing rows are
created; an empty block writes nothing). -/
def writeAt (ws block : List (List String)) (start : Nat) : List (List String) :=
  match block with
  | [] => ws
  | _ :: _ =>
    match start, ws with
    | 0, ws => overlayBlock ws block
    | n + 1, [] => [] :: writeAt [] block n
    | n + 1, r :: rs => r :: writeAt rs block n

/-- `worksheet.row_values(1)`: the first row of the sheet with trailing
empty cells trimmed (the Sheets API omits them); `[]` on an empty sheet. -/
def row_values1 (ws : List (List String)) : List String :=
  ((ws.headD []).reverse.dropWhile (fun s => s == "")).reverse

/-- `get_existing_data_count` (src/app.py:173-181): number of rows of
the worksheet minus one for the header, clamped at 0 (Nat subtraction). -/
def get_existing_data_count (ws : List (List String)) : Nat := ws.length - 1

/-- Lines 193-207 of `append_to_sheet` (src/app.py): build
`reordered_data` column by column — every destination header takes the
incoming column of exactly that name if present (`if header in
new_data.columns`, an exact case-sensitive test) and a column of empty
strings otherwise; incoming columns absent from the headers are then
appended in upload order; finally `fillna("")`.

pandas note: scalar `""` assignments made while the frame is still
empty are re-indexed to the full row count by the first column
assignment and their cells become NaN, which the final `fillna("")`
turns back into `""` — so every synthesized column is a column of
`height new_data` empty strings, as modelled here. -/
def reorderedCol (new_data : Table) (h : String) : List Cell :=
  match new_data.cols.find? (fun c => c.1 == h) with
  | some c => c.2
  | none => List.replicate (height new_data) (Cell.str "")

/-- One pandas column assignment `df[k] = v`: assignment to an existing
column label replaces that column in place (it never creates a
duplicate label), assignment to a new label appends the column on the
right.  Repeated destination header occurrences (including repeated
interior blank headers surviving `row_values(1)`) therefore collapse
into a single column. -/
def setCol (d : List (String × List Cell)) (k : String) (v : List Cell) :
    List (String × List Cell) :=
  if d.any (fun p => p.1 == k) then
    d.map (fun p => if p.1 == k then (p.1, v) else p)
  else d ++ [(k, v)]

/-- See `reorderedCol` for the per-header column choice (lines 195-199
of src/app.py) and `setCol` for the per-assignment semantics.  The
embedding selects a column by its first occurrence (`getCol`,
`reorderedCol`); real pandas raises on selecting a duplicated upload
label (the exception would be caught and reported as failure), a case
every theorem below excludes by hypothesis or concrete input. -/
def reorder_columns (existing_headers : List String) (new_data : Table) : Table :=
  let base := existing_headers.foldl (fun d h => setCol d h (reorderedCol new_data h)) []
  let extra := new_data.cols.filter (fun c => !(existing_headers.contains c.1))
  let full := extra.foldl (fun d c => setCol d c.1 c.2) base
  ⟨full.map (fun c => (c.1, fillnaVals c.2))⟩

/-- `append_to_sheet` (src/app.py:183-224).  If the sheet has no header
row, the whole table including its header is written at row 1.
Otherwise the incoming table is reordered to the sheet's header order
(`reorder_columns`) and its data rows are written, without a header, at
the 1-based row `existing_rows + 1` where
`existing_rows = len(get_all_values()) - 1` — i.e. at 0-based row
`ws.length - 1`.  Returns the success flag and the resulting sheet. -/
def append_to_sheet (ws : List (List String)) (new_data : Table) : Bool × List (List String) :=
  let existing_headers := row_values1 ws
  if existing_headers.isEmpty then
    (true, writeAt ws (headerRow (tfillna new_data) :: tableRows (tfillna new_data)) 0)
  else
    let reordered := reorder_columns existing_headers new_data
    let existing_rows := ws.length - 1
    (true, writeAt ws (tableRows reordered) existing_rows)

/-- `update_sheet_data` (src/app.py:98-110): clear the worksheet, then
write the table (header included) at row 1.  The remote calls can fail;
the two flags model whether `clear()` and the write succeed.  Any
exception is caught and reported as `false`. -/
def update_sheet_data (clearOk writeOk : Bool) (ws : List (List String)) (data : Table) :
    Bool × List (List String) :=
  if clearOk then
    if writeOk then (true, writeAt [] (headerRow data :: tableRows data) 0)
    else (false, [])
  else (false, ws)

/-! ### Filename period extraction -/

/-- The integer value of a digit character. -/
def dv (c : Char) : Int := (c.toNat : Int) - 48

/-- `int` of a two-digit string given by its characters. -/
def val2 (a b : Char) : Int := 10 * dv a + dv b

/-- `int` of a four-digit string given by its characters. -/
def val4 (a b c d : Char) : Int := 1000 * dv a + 100 * dv b + 10 * dv c + dv d

/-- Is position `i` of `cs` an ASCII digit (`\d` of the patterns)?
Out-of-range positions read as a space and fail. -/
def isD (cs : List Char) (i : Nat) : Bool := (cs.getD i ' ').isDigit

/-- Does `\d{2}_\d{2}_\d{4}` (the `DD_MM_YYYY` shape) match at position
`i` of `cs`? -/
def shapeDateAt (cs : List Char) (i : Nat) : Bool :=
  isD cs i && isD cs (i+1) && (cs.getD (i+2) ' ' == '_') &&
  isD cs (i+3) && isD cs (i+4) && (cs.getD (i+5) ' ' == '_') &&
  isD cs (i+6) && isD cs (i+7) && isD cs (i+8) && isD cs (i+9)

/-- Does the Grammar A pattern `(\d{2}_\d{2}_\d{4})-(\d{2}_\d{2}_\d{4})`
(src/app.py:116) match at start position `i`?  The pattern is 21
characters long, so a match needs `i + 21 ≤ cs.length` (the shape
checks already fail out of range, where `getD` reads a space; the
explicit bound is recorded for convenience). -/
def matchAAt (cs : List Char) (i : Nat) : Bool :=
  decide (i + 21 ≤ cs.length) && shapeDateAt cs i &&
  (cs.getD (i+10) ' ' == '-') && shapeDateAt cs (i+11)

/-- Scan for the leftmost match position at or after `i`, with enough
fuel to cover the string — this is `re.search`'s left-to-right scan for
a fixed-length pattern. -/
def searchFrom (cs : List Char) (i : Nat) : Nat → Option Nat
  | 0 => none
  | fuel + 1 => if matchAAt cs i then some i else searchFrom cs (i + 1) fuel

/-- The month field of the first date of a Grammar A match at `j`:
`int(group(1).split('_')[1])`, i.e. the digits at positions `j+3`,
`j+4`. -/
def monthAt (cs : List Char) (j : Nat) : Int :=
  val2 (cs.getD (j+3) ' ') (cs.getD (j+4) ' ')

/-- The year field of the first date of a Grammar A match at `j`:
`int(group(1).split('_')[2])`, i.e. the digits at positions `j+6`…`j+9`. -/
def yearAt (cs : List Char) (j : Nat) : Int :=
  val4 (cs.getD (j+6) ' ') (cs.getD (j+7) ' ') (cs.getD (j+8) ' ') (cs.getD (j+9) ' ')

/-- `extract_date_from_filename` (src/app.py:112-135): search for the
leftmost `DD_MM_YYYY-DD_MM_YYYY` substring; on a match return
`(month, quarter, year)` with `month`/`year` from the first date and
`quarter = (month - 1) // 3 + 1` (Python floor division, `Int.fdiv`);
otherwise `none` (the Python `(None, None, None)`). -/
def extract_date_from_filename (s : String) : Option (Int × Int × Int) :=
  match searchFrom s.data 0 s.data.length with
  | some j =>
    some (monthAt s.data j, (monthAt s.data j - 1).fdiv 3 + 1, yearAt s.data j)
  | none => none

/-- The common body of the Grammar B decode: given the ten characters
captured as `(\d{4})_(\d{2})_(\d{2})`, check the digit and underscore
positions and return `(month, quarter, year)`; the day digits are
checked (captured) but unused. -/
def decodeB : List Char → Option (Int × Int × Int)
  | [y1, y2, y3, y4, u1, m1, m2, u2, d1, d2] =>
    if (y1.isDigit && y2.isDigit && y3.isDigit && y4.isDigit && (u1 == '_') &&
        m1.isDigit && m2.isDigit && (u2 == '_') && d1.isDigit && d2.isDigit) then
      some (val2 m1 m2, (val2 m1 m2 - 1).fdiv 3 + 1, val4 y1 y2 y3 y4)
    else none
  | _ => none

/-- The anchored part of the Grammar B search on a character sequence
whose end is where `$` matches: every piece of the pattern
`(\d{4})_(\d{2})_(\d{2})\.csv?` has fixed length except the optional
final `v`, so a match exists exactly when the sequence ends with the
14-character suffix `YYYY_MM_DD.csv` or with the 13-character suffix
`YYYY_MM_DD.cs` (the `?` applies to the `v` only); the two cases are
mutually exclusive (they demand a different last character). -/
def matchBCore (cs : List Char) : Option (Int × Int × Int) :=
  let n := cs.length
  if 14 ≤ n ∧ cs.drop (n - 4) = ['.', 'c', 's', 'v'] then
    decodeB ((cs.drop (n - 14)).take 10)
  else if 13 ≤ n ∧ cs.drop (n - 3) = ['.', 'c', 's'] then
    decodeB ((cs.drop (n - 13)).take 10)
  else none

/-- `extract_date_from_brand_analytics_filename` (src/app.py:137-157):
`re.search` with the `$`-anchored pattern `(\d{4})_(\d{2})_(\d{2})\.csv?$`.
Python's `$` (no MULTILINE) matches at the end of the string or just
before a newline that ends it; the pattern's own last character is `s`
or `v`, never the newline, so stripping one trailing newline and then
performing the fixed-length suffix test (`matchBCore`) is exact. -/
def extract_date_from_brand_analytics_filename (s : String) : Option (Int × Int × Int) :=
  let cs := if s.data.getLast? = some '\n' then s.data.dropLast else s.data
  matchBCore cs

/-- The 13 characters `YYYY_MM_DD.cs` that every Grammar B filename
ends with (optionally followed by a final `v`), given its digit
characters. -/
def grammarBTail (y1 y2 y3 y4 m1 m2 d1 d2 : Char) : List Char :=
  [y1, y2, y3, y4, '_', m1, m2, '_', d1, d2, '.', 'c', 's']

/-- `add_month_quarter_columns` (src/app.py:159-171):
`df.insert(0, 'Quarter', quarter)` then `df.insert(1, 'Month', month)`,
each scalar broadcast to every row.  `DataFrame.insert` raises if the
column already exists; the exception is caught and `None` returned. -/
def add_month_quarter_columns (df : Table) (month quarter : Int) : Option Table :=
  if "Quarter" ∈ colNames df ∨ "Month" ∈ colNames df then none
  else
    some ⟨("Quarter", List.replicate (height df) (Cell.int quarter)) ::
          ("Month", List.replicate (height df) (Cell.int month)) :: df.cols⟩

/-! ### Column reconciliation -/

/-- Python's `str.lower()` (ASCII case folding, character by
character). -/
def pyLower (s : String) : String := ⟨s.data.map Char.toLower⟩

/-- Python dict insertion `d[k] = v`: an existing key keeps its
position and gets the new value, a new key is appended. -/
def dictInsert (d : List (String × String)) (k v : String) : List (String × String) :=
  if d.any (fun p => p.1 == k) then
    d.map (fun p => if p.1 == k then (p.1, v) else p)
  else d ++ [(k, v)]

/-- `{col.lower(): col for col in cols}` (insertion-ordered Python dict). -/
def buildLowerDict (cols : List String) : List (String × String) :=
  cols.foldl (fun d c => dictInsert d (pyLower c) c) []

/-- `filter_and_reorder_data` (src/app.py:293-323): build the two
case-folded dicts, pair each destination header (in dict insertion
order) with the upload column of the same lowercase name, fail with
`None` when no pair exists, and otherwise project the upload onto the
paired columns under the destination's exact-cased names. -/
def filter_and_reorder_data (t : Table) (existing_columns : List String) :
    Option (Table × List String × List String) :=
  let dfL := buildLowerDict (colNames t)
  let exL := buildLowerDict existing_columns
  let matching := exL.filterMap (fun p => (List.lookup p.1 dfL).map (fun fc => (p.2, fc)))
  if matching.isEmpty then none
  else
    some (⟨matching.map (fun m => (m.1, getCol t m.2))⟩,
          matching.map Prod.fst, matching.map Prod.snd)

/-- The reconciler as the specification words it: for each destination
header in its original left-to-right order, take the (unique, for
case-insensitively distinct names) upload column matching it
case-insensitively, under the destination's exact-cased name; signal
`NoMatch` (`none`) when zero destination headers match.  Stated from
the spec for comparison with `filter_and_reorder_data`. -/
def reconcileSpec (t : Table) (existing : List String) :
    Option (Table × List String × List String) :=
  let pairs := existing.filterMap (fun e =>
    ((colNames t).find? (fun c => pyLower e == pyLower c)).map (fun c => (e, c)))
  if pairs.isEmpty then none
  else
    some (⟨pairs.map (fun m => (m.1, getCol t m.2))⟩,
          pairs.map Prod.fst, pairs.map Prod.snd)

/-! ### Helper lemmas -/

theorem overlayBlock_nil (block : List (List String)) : overlayBlock [] block = block := by
  induction block with
  | nil => rfl
  | cons b bs ih => simp [overlayBlock, overlayRow, ih]

theorem writeAt_nil_zero (block : List (List String)) : writeAt [] block 0 = block := by
  cases block with
  | nil => rfl
  | cons b bs => simp [writeAt, overlayBlock_nil]

/-- A Grammar A match needs a digit at its start position, so it cannot
begin at or beyond the end of the string. -/
theorem matchAAt_lt {cs : List Char} {i : Nat} (h : matchAAt cs i = true) : i < cs.length := by
  have h1 : i + 21 ≤ cs.length := by
    unfold matchAAt at h
    simp only [Bool.and_eq_true, decide_eq_true_eq] at h
    exact h.1.1.1
  omega

/-- Soundness of the scan: a found position matches and is the leftmost
match at or after the scan start. -/
theorem searchFrom_eq_some (cs : List Char) (j : Nat) :
    ∀ (f i : Nat), searchFrom cs i f = some j →
      matchAAt cs j = true ∧ i ≤ j ∧ ∀ k, i ≤ k → k < j → matchAAt cs k = false := by
  intro f
  induction f with
  | zero => intro i h; simp [searchFrom] at h
  | succ f ih =>
    intro i h
    rw [searchFrom] at h
    by_cases hm : matchAAt cs i
    · rw [if_pos hm] at h
      cases h
      exact ⟨hm, Nat.le_refl j, fun k hk1 hk2 => absurd hk1 (by omega)⟩
    · rw [if_neg hm] at h
      obtain ⟨h1, h2, h3⟩ := ih (i + 1) h
      refine ⟨h1, by omega, fun k hk1 hk2 => ?_⟩
      rcases Nat.eq_or_lt_of_le hk1 with rfl | hl
      · simpa using hm
      · exact h3 k (by omega) hk2

/-- Completeness of the scan: if some position within the fuel matches,
the scan finds one. -/
theorem searchFrom_isSome (cs : List Char) (j : Nat) (hm : matchAAt cs j = true) :
    ∀ (f i : Nat), i ≤ j → j < i + f → (searchFrom cs i f).isSome = true := by
  intro f
  induction f with
  | zero => intro i h1 h2; omega
  | succ f ih =>
    intro i h1 h2
    rw [searchFrom]
    by_cases hmi : matchAAt cs i
    · rw [if_pos hmi]; rfl
    · rw [if_neg hmi]
      have hne : i ≠ j := fun he => hmi (he ▸ hm)
      exact ih (i + 1) (by omega) (by omega)

/-- Inversion for the Grammar B capture decode: a successful decode
pins the ten characters to the `YYYY_MM_DD` shape and the result to the
field values. -/
theorem decodeB_eq_some {l : List Char} {r : Int × Int × Int} (h : decodeB l = some r) :
    ∃ y1 y2 y3 y4 m1 m2 d1 d2,
      l = [y1, y2, y3, y4, '_', m1, m2, '_', d1, d2] ∧
      (y1.isDigit && y2.isDigit && y3.isDigit && y4.isDigit &&
       m1.isDigit && m2.isDigit && d1.isDigit && d2.isDigit) = true ∧
      r = (val2 m1 m2, (val2 m1 m2 - 1).fdiv 3 + 1, val4 y1 y2 y3 y4) := by
  unfold decodeB at h
  split at h
  next y1 y2 y3 y4 u1 m1 m2 u2 d1 d2 =>
    split at h
    next hcond =>
      obtain ⟨⟨⟨⟨⟨⟨⟨⟨⟨h1, h2⟩, h3⟩, h4⟩, h5⟩, h6⟩, h7⟩, h8⟩, h9⟩, h10⟩ := by
        simpa only [Bool.and_eq_true] using hcond
      have hu1 : u1 = '_' := by simpa using h5
      have hu2 : u2 = '_' := by simpa using h8
      subst hu1 hu2
      exact ⟨y1, y2, y3, y4, m1, m2, d1, d2, rfl,
        by simp [h1, h2, h3, h4, h6, h7, h9, h10], ((Option.some.injEq _ _).mp h).symm⟩
    next => exact absurd h (by simp)
  next => exact absurd h (by simp)

/-! ### Claims -/

/-- C1 (code bug): `append_to_sheet` is claimed to leave every
pre-existing data row unchanged and to write the incoming rows after
the last existing data row.  In fact the write is anchored at the
1-based row `len(get_all_values()) - 1 + 1`, which is the row of the
last existing data row, so that row is overwritten: appending the rows
`y`, `z` to a sheet with header `A` and the single data row `x`
produces the data rows `y`, `z` — the pre-existing row `x` is gone. -/
theorem append_to_sheet_mutates_last_existing_row :
    append_to_sheet [["A"], ["x"]] ⟨[("A", [Cell.str "y", Cell.str "z"])]⟩ =
      (true, [["A"], ["y"], ["z"]]) ∧
    [["A"], ["y"], ["z"]].getD 1 [] ≠ ["x"] := by decide

/-- C2 (code bug): append row counting.  Appending a 2-row table to an
empty sheet does give data row count 2, but a second append of 1 row
leaves the count at 2 instead of 3: the first new row lands on the last
existing data row (same off-by-one as C1), so the claimed `N + M`
accounting fails. -/
theorem append_to_sheet_row_count_not_additive :
    get_existing_data_count
        (append_to_sheet [] ⟨[("A", [Cell.str "r1", Cell.str "r2"])]⟩).2 = 2 ∧
    get_existing_data_count
        (append_to_sheet (append_to_sheet [] ⟨[("A", [Cell.str "r1", Cell.str "r2"])]⟩).2
          ⟨[("A", [Cell.str "s1"])]⟩).2 = 2 := by decide

/-- C3 (counterexample): on destination headers `["ASIN","Sales","Date"]`
and uploaded columns `["date","asin","extra"]`, the reconciled table's
columns are `["ASIN","Date"]`, not the claimed `["ASIN","Sales","Date"]`:
the unmatched destination header `Sales` is not materialized at all. -/
theorem reconcile_example_counterexample :
    (filter_and_reorder_data
        ⟨[("date", [Cell.str "d1", Cell.str "d2"]),
          ("asin", [Cell.str "a1", Cell.str "a2"]),
          ("extra", [Cell.str "e1", Cell.str "e2"])]⟩
        ["ASIN", "Sales", "Date"]).map (fun r => colNames r.1) = some ["ASIN", "Date"] ∧
    some ["ASIN", "Date"] ≠ some ["ASIN", "Sales", "Date"] := by decide

/-- C3 (amended): for destination headers `["ASIN","Sales","Date"]` and
an uploaded table with columns `["date","asin","extra"]`,
`filter_and_reorder_data` produces the table with columns, in order,
`["ASIN","Date"]` carrying the upload's `asin`/`date` values — the
unmatched destination header `Sales` is omitted rather than emitted as
an empty column, the `extra` column is dropped, and the match count
(the length of the matched column lists) is 2. -/
theorem reconcile_example_amended :
    filter_and_reorder_data
        ⟨[("date", [Cell.str "d1", Cell.str "d2"]),
          ("asin", [Cell.str "a1", Cell.str "a2"]),
          ("extra", [Cell.str "e1", Cell.str "e2"])]⟩
        ["ASIN", "Sales", "Date"] =
      some (⟨[("ASIN", [Cell.str "a1", Cell.str "a2"]),
              ("Date", [Cell.str "d1", Cell.str "d2"])]⟩,
            ["ASIN", "Date"], ["asin", "date"]) := by decide

/-- C4 (counterexample): with destination headers `["A", "a"]` that
differ only in case and an upload with the single column `a`, the
reconciler produces a single output column named `a` — the Python
case-folded dict collapses the two destination headers, so the claimed
"one output column per matching destination header, under its
exact-cased name" fails: no column named `A` is produced. -/
theorem reconcile_duplicate_case_headers_counterexample :
    filter_and_reorder_data ⟨[("a", [Cell.str "x"])]⟩ ["A", "a"] =
      some (⟨[("a", [Cell.str "x"])]⟩, ["a"], ["a"]) ∧
    "A" ∉ colNames (⟨[("a", [Cell.str "x"])]⟩ : Table) := by decide

/-- C5 (counterexample): the Grammar B pattern is `(\d{4})_(\d{2})_(\d{2})\.csv?$`
— the `?` makes only the `v` optional — so the filename
`US_2025_07_31.cs`, which does not end in `.csv`, is nevertheless
accepted.  The claim that recognition succeeds exactly on filenames
ending with the literal extension `.csv` is false. -/
theorem grammarB_accepts_cs_counterexample :
    extract_date_from_brand_analytics_filename "US_2025_07_31.cs" = some (7, 3, 2025) ∧
    (∀ t : List Char, "US_2025_07_31.cs".data ≠ t ++ ['.', 'c', 's', 'v']) := by
  constructor
  · decide
  · intro t h
    have hlen : t.length = 12 := by
      have := congrArg List.length h
      simp at this
      omega
    have h4 : "US_2025_07_31.cs".data.drop 12 = ['.', 'c', 's', 'v'] := by
      rw [h, ← hlen, List.drop_left]
    exact absurd h4 (by decide)

/-- C7 (counterexample): the extractors perform no range validation, so
the successful result on `x_2025_13_31.csv` has month 13 and quarter 5,
violating the claimed `month ∈ 1..12` and `quarter ∈ 1..4` invariant. -/
theorem period_marker_range_counterexample :
    extract_date_from_brand_analytics_filename "x_2025_13_31.csv" = some (13, 5, 2025) ∧
    ¬((13 : Int) ≤ 12 ∧ (5 : Int) ≤ 4) := by decide

/-- C8 (counterexample): `add_month_quarter_columns` fails (returns no
table) on a table that already has a `Quarter` column, contradicting
the "for every table" claim; and on an ordinary table the two new
columns are placed at the start — `["Quarter","Month","A"]`, not
`["A","Quarter","Month"]` — by the one global augmenter, which takes no
per-destination placement configuration. -/
theorem add_month_quarter_columns_counterexample :
    add_month_quarter_columns ⟨[("Quarter", [Cell.str "x"])]⟩ 7 3 = none ∧
    (add_month_quarter_columns ⟨[("A", [Cell.str "x"])]⟩ 7 3).map colNames =
      some ["Quarter", "Month", "A"] ∧
    (["Quarter", "Month", "A"] : List String) ≠ ["A", "Quarter", "Month"] := by decide

/-- C8 (amended): for every table containing neither a `Quarter` nor a
`Month` column and every period marker, `add_month_quarter_columns`
returns the table extended with exactly two new columns — `Quarter` at
position 0 and `Month` at position 1, each the marker's value broadcast
to every row — with all original columns and cell values unchanged.
(The start placement is hardcoded in this single global augmenter; a
table already containing either column makes the operation fail.) -/
theorem add_month_quarter_columns_spec (df : Table) (month quarter : Int)
    (hq : "Quarter" ∉ colNames df) (hm : "Month" ∉ colNames df) :
    add_month_quarter_columns df month quarter =
      some ⟨("Quarter", List.replicate (height df) (Cell.int quarter)) ::
            ("Month", List.replicate (height df) (Cell.int month)) :: df.cols⟩ := by
  simp [add_month_quarter_columns, hq, hm]

theorem add_month_quarter_columns_spec_witness :
    "Quarter" ∉ colNames (⟨[("A", [Cell.str "x", Cell.str "y"])]⟩ : Table) ∧
    "Month" ∉ colNames (⟨[("A", [Cell.str "x", Cell.str "y"])]⟩ : Table) ∧
    add_month_quarter_columns ⟨[("A", [Cell.str "x", Cell.str "y"])]⟩ 7 3 =
      some ⟨[("Quarter", [Cell.int 3, Cell.int 3]),
             ("Month", [Cell.int 7, Cell.int 7]),
             ("A", [Cell.str "x", Cell.str "y"])]⟩ :=
  ⟨by decide, by decide,
   (add_month_quarter_columns_spec ⟨[("A", [Cell.str "x", Cell.str "y"])]⟩ 7 3
      (by decide) (by decide)).trans (by decide)⟩

/-- Completeness of the anchored Grammar B matcher: a sequence ending
with `YYYY_MM_DD.cs` plus an optional final `v` is accepted, with the
field values. -/
theorem matchBCore_complete (t : List Char) (y1 y2 y3 y4 m1 m2 d1 d2 : Char) (v : List Char)
    (hd : (y1.isDigit && y2.isDigit && y3.isDigit && y4.isDigit &&
       m1.isDigit && m2.isDigit && d1.isDigit && d2.isDigit) = true)
    (hv : v = [] ∨ v = ['v']) :
    matchBCore (t ++ grammarBTail y1 y2 y3 y4 m1 m2 d1 d2 ++ v) =
      some (val2 m1 m2, (val2 m1 m2 - 1).fdiv 3 + 1, val4 y1 y2 y3 y4) := by
  simp only [Bool.and_eq_true] at hd
  obtain ⟨⟨⟨⟨⟨⟨⟨hy1, hy2⟩, hy3⟩, hy4⟩, hm1⟩, hm2⟩, hd1⟩, hd2⟩ := hd
  rcases hv with rfl | rfl
  · -- suffix `.cs`
    simp only [matchBCore, List.append_nil]
    have hL : (t ++ grammarBTail y1 y2 y3 y4 m1 m2 d1 d2).length = t.length + 13 := by
      simp [grammarBTail]
    have hc1 : ¬(14 ≤ (t ++ grammarBTail y1 y2 y3 y4 m1 m2 d1 d2).length ∧
        (t ++ grammarBTail y1 y2 y3 y4 m1 m2 d1 d2).drop
          ((t ++ grammarBTail y1 y2 y3 y4 m1 m2 d1 d2).length - 4) = ['.', 'c', 's', 'v']) := by
      rintro ⟨-, hdrop⟩
      have he : (t ++ grammarBTail y1 y2 y3 y4 m1 m2 d1 d2).length - 4 = t.length + 9 := by
        rw [hL]
        omega
      rw [he, List.drop_append 9] at hdrop
      have h2c := congrArg (fun l => l.getD 1 ' ') hdrop
      simp [grammarBTail] at h2c
    have hc2 : 13 ≤ (t ++ grammarBTail y1 y2 y3 y4 m1 m2 d1 d2).length ∧
        (t ++ grammarBTail y1 y2 y3 y4 m1 m2 d1 d2).drop
          ((t ++ grammarBTail y1 y2 y3 y4 m1 m2 d1 d2).length - 3) = ['.', 'c', 's'] := by
      refine ⟨by rw [hL]; omega, ?_⟩
      have he : (t ++ grammarBTail y1 y2 y3 y4 m1 m2 d1 d2).length - 3 = t.length + 10 := by
        rw [hL]
        omega
      rw [he, List.drop_append 10]
      rfl
    rw [if_neg hc1, if_pos hc2]
    have he13 : (t ++ grammarBTail y1 y2 y3 y4 m1 m2 d1 d2).length - 13 = t.length + 0 := by
      rw [hL]
      omega
    rw [he13, List.drop_append 0]
    rw [show ((grammarBTail y1 y2 y3 y4 m1 m2 d1 d2).drop 0).take 10 =
          [y1, y2, y3, y4, '_', m1, m2, '_', d1, d2] from rfl]
    simp [decodeB, hy1, hy2, hy3, hy4, hm1, hm2, hd1, hd2]
  · -- suffix `.csv`
    simp only [matchBCore, List.append_assoc]
    have hL : (t ++ (grammarBTail y1 y2 y3 y4 m1 m2 d1 d2 ++ ['v'])).length = t.length + 14 := by
      simp [grammarBTail]
    have hc1 : 14 ≤ (t ++ (grammarBTail y1 y2 y3 y4 m1 m2 d1 d2 ++ ['v'])).length ∧
        (t ++ (grammarBTail y1 y2 y3 y4 m1 m2 d1 d2 ++ ['v'])).drop
          ((t ++ (grammarBTail y1 y2 y3 y4 m1 m2 d1 d2 ++ ['v'])).length - 4) =
          ['.', 'c', 's', 'v'] := by
      refine ⟨by rw [hL]; omega, ?_⟩
      have he : (t ++ (grammarBTail y1 y2 y3 y4 m1 m2 d1 d2 ++ ['v'])).length - 4 =
          t.length + 10 := by
        rw [hL]
        omega
      rw [he, List.drop_append 10]
      rfl
    rw [if_pos hc1]
    have he14 : (t ++ (grammarBTail y1 y2 y3 y4 m1 m2 d1 d2 ++ ['v'])).length - 14 =
        t.length + 0 := by
      rw [hL]
      omega
    rw [he14, List.drop_append 0]
    rw [show ((grammarBTail y1 y2 y3 y4 m1 m2 d1 d2 ++ ['v']).drop 0).take 10 =
          [y1, y2, y3, y4, '_', m1, m2, '_', d1, d2] from rfl]
    simp [decodeB, hy1, hy2, hy3, hy4, hm1, hm2, hd1, hd2]

/-- Soundness of the anchored Grammar B matcher: an accepted sequence
decomposes into a prefix, the `YYYY_MM_DD.cs` shape and an optional
final `v`, and the result is read off the digit fields. -/
theorem matchBCore_sound (cs : List Char) (r : Int × Int × Int) (h : matchBCore cs = some r) :
    ∃ t y1 y2 y3 y4 m1 m2 d1 d2 v,
      cs = t ++ grammarBTail y1 y2 y3 y4 m1 m2 d1 d2 ++ v ∧
      (v = [] ∨ v = ['v']) ∧
      (y1.isDigit && y2.isDigit && y3.isDigit && y4.isDigit &&
       m1.isDigit && m2.isDigit && d1.isDigit && d2.isDigit) = true ∧
      r = (val2 m1 m2, (val2 m1 m2 - 1).fdiv 3 + 1, val4 y1 y2 y3 y4) := by
  simp only [matchBCore] at h
  split_ifs at h with h1 h2
  · obtain ⟨h14, hdrop⟩ := h1
    obtain ⟨y1, y2, y3, y4, m1, m2, d1, d2, hshape, hdig, hr⟩ := decodeB_eq_some h
    refine ⟨cs.take (cs.length - 14), y1, y2, y3, y4, m1, m2, d1, d2, ['v'],
      ?_, Or.inr rfl, hdig, hr⟩
    conv_lhs => rw [← List.take_append_drop (cs.length - 4) cs]
    rw [hdrop]
    have hsplit : cs.take (cs.length - 4) =
        cs.take (cs.length - 14) ++ (cs.drop (cs.length - 14)).take 10 := by
      have he : cs.length - 4 = (cs.length - 14) + 10 := by omega
      rw [he, List.take_add]
    rw [hsplit, hshape]
    all_goals simp [grammarBTail]
  · obtain ⟨h13, hdrop⟩ := h2
    obtain ⟨y1, y2, y3, y4, m1, m2, d1, d2, hshape, hdig, hr⟩ := decodeB_eq_some h
    refine ⟨cs.take (cs.length - 13), y1, y2, y3, y4, m1, m2, d1, d2, [],
      ?_, Or.inl rfl, hdig, hr⟩
    conv_lhs => rw [← List.take_append_drop (cs.length - 3) cs]
    rw [hdrop]
    have hsplit : cs.take (cs.length - 3) =
        cs.take (cs.length - 13) ++ (cs.drop (cs.length - 13)).take 10 := by
      have he : cs.length - 3 = (cs.length - 13) + 10 := by omega
      rw [he, List.take_add]
    rw [hsplit, hshape]
    all_goals simp [grammarBTail]

/-- The quarter of any anchored Grammar B acceptance is derived from
its month by the floor-division formula. -/
theorem matchBCore_quarter {cs : List Char} {m q y : Int}
    (h : matchBCore cs = some (m, q, y)) : q = (m - 1).fdiv 3 + 1 := by
  obtain ⟨t, y1, y2, y3, y4, m1, m2, d1, d2, v, -, -, -, hr⟩ := matchBCore_sound cs (m, q, y) h
  simp only [Prod.mk.injEq] at hr
  obtain ⟨hm, hq', -⟩ := hr
  rw [hq', hm]

/-- C5 (amended): Grammar B recognition.
`extract_date_from_brand_analytics_filename` succeeds exactly on the
filenames whose character sequence ends with `YYYY_MM_DD.cs`, an
optional final `v`, and an optional single trailing newline: the
pattern `\.csv?$` makes only the `v` optional — so the bare suffix
`.cs` is also accepted, refuting the claimed "literal extension
`.csv`", see the counterexample — and Python's `$` also matches just
before one newline that ends the string.  On success the result is
`(month, quarter, year)` read from the captured digit fields, the day
being captured but unused; every other filename yields `none`. -/
theorem grammarB_characterization :
    (∀ (t : List Char) (y1 y2 y3 y4 m1 m2 d1 d2 : Char) (v w : List Char),
      (y1.isDigit && y2.isDigit && y3.isDigit && y4.isDigit &&
       m1.isDigit && m2.isDigit && d1.isDigit && d2.isDigit) = true →
      v = [] ∨ v = ['v'] →
      w = [] ∨ w = ['\n'] →
      extract_date_from_brand_analytics_filename
          ⟨t ++ grammarBTail y1 y2 y3 y4 m1 m2 d1 d2 ++ v ++ w⟩ =
        some (val2 m1 m2, (val2 m1 m2 - 1).fdiv 3 + 1, val4 y1 y2 y3 y4)) ∧
    (∀ (s : String) (r : Int × Int × Int),
      extract_date_from_brand_analytics_filename s = some r →
      ∃ t y1 y2 y3 y4 m1 m2 d1 d2 v w,
        s.data = t ++ grammarBTail y1 y2 y3 y4 m1 m2 d1 d2 ++ v ++ w ∧
        (v = [] ∨ v = ['v']) ∧
        (w = [] ∨ w = ['\n']) ∧
        (y1.isDigit && y2.isDigit && y3.isDigit && y4.isDigit &&
         m1.isDigit && m2.isDigit && d1.isDigit && d2.isDigit) = true ∧
        r = (val2 m1 m2, (val2 m1 m2 - 1).fdiv 3 + 1, val4 y1 y2 y3 y4)) := by
  constructor
  · intro t y1 y2 y3 y4 m1 m2 d1 d2 v w hd hv hw
    rcases hw with rfl | rfl
    · simp only [extract_date_from_brand_analytics_filename, List.append_nil]
      have hlast : ¬((t ++ grammarBTail y1 y2 y3 y4 m1 m2 d1 d2 ++ v).getLast? = some '\n') := by
        rcases hv with rfl | rfl
        · rw [List.append_nil, List.getLast?_append_of_ne_nil _ (by simp [grammarBTail])]
          rw [show (grammarBTail y1 y2 y3 y4 m1 m2 d1 d2).getLast? = some 's' from rfl]
          simp
        · rw [List.getLast?_concat]
          simp
      rw [if_neg hlast]
      exact matchBCore_complete t y1 y2 y3 y4 m1 m2 d1 d2 v hd hv
    · simp only [extract_date_from_brand_analytics_filename]
      have hcond : ((t ++ grammarBTail y1 y2 y3 y4 m1 m2 d1 d2 ++ v) ++ ['\n']).getLast? =
          some '\n' := List.getLast?_concat _
      rw [if_pos hcond, List.dropLast_concat]
      exact matchBCore_complete t y1 y2 y3 y4 m1 m2 d1 d2 v hd hv
  · intro s r h
    simp only [extract_date_from_brand_analytics_filename] at h
    by_cases hl : s.data.getLast? = some '\n'
    · rw [if_pos hl] at h
      obtain ⟨t, y1, y2, y3, y4, m1, m2, d1, d2, v, hcs, hv, hdig, hr⟩ :=
        matchBCore_sound _ _ h
      refine ⟨t, y1, y2, y3, y4, m1, m2, d1, d2, v, ['\n'], ?_, hv, Or.inr rfl, hdig, hr⟩
      have hrec : s.data.dropLast ++ ['\n'] = s.data := List.dropLast_append_getLast? '\n' hl
      rw [← hrec, hcs]
    · rw [if_neg hl] at h
      obtain ⟨t, y1, y2, y3, y4, m1, m2, d1, d2, v, hcs, hv, hdig, hr⟩ :=
        matchBCore_sound _ _ h
      refine ⟨t, y1, y2, y3, y4, m1, m2, d1, d2, v, [], ?_, hv, Or.inl rfl, hdig, hr⟩
      rw [List.append_nil]
      exact hcs

theorem grammarB_characterization_witness :
    extract_date_from_brand_analytics_filename "US_2025_07_31.csv" = some (7, 3, 2025) ∧
    extract_date_from_brand_analytics_filename "US_2025_07_31.cs\n" = some (7, 3, 2025) := by
  constructor
  · have h := grammarB_characterization.1 "US_".data '2' '0' '2' '5' '0' '7' '3' '1' ['v'] []
      (by decide) (Or.inr rfl) (Or.inl rfl)
    have he : (⟨"US_".data ++ grammarBTail '2' '0' '2' '5' '0' '7' '3' '1' ++ ['v'] ++ []⟩ :
        String) = "US_2025_07_31.csv" := by decide
    rw [he] at h
    exact h.trans (by decide)
  · have h := grammarB_characterization.1 "US_".data '2' '0' '2' '5' '0' '7' '3' '1' [] ['\n']
      (by decide) (Or.inl rfl) (Or.inr rfl)
    have he : (⟨"US_".data ++ grammarBTail '2' '0' '2' '5' '0' '7' '3' '1' ++ [] ++ ['\n']⟩ :
        String) = "US_2025_07_31.cs\n" := by decide
    rw [he] at h
    exact h.trans (by decide)
/-- C6: Grammar A contract.  For every filename in which the pattern
`DD_MM_YYYY-DD_MM_YYYY` matches at some position, the extractor locates
the leftmost match `j` and returns the month read from the first date's
second underscore-separated field (characters `j+3`,`j+4`), the year
from its third field (characters `j+6`…`j+9`), and the derived quarter;
for every filename with no match it returns `none` — all three fields
absent, no partial result — and, being a total function, it never
throws. -/
theorem extract_date_from_filename_correct (s : String) :
    ((∀ i, i < s.data.length → matchAAt s.data i = false) →
        extract_date_from_filename s = none) ∧
    (∀ i, matchAAt s.data i = true →
      ∃ j, matchAAt s.data j = true ∧ (∀ k, k < j → matchAAt s.data k = false) ∧
        extract_date_from_filename s =
          some (monthAt s.data j, (monthAt s.data j - 1).fdiv 3 + 1, yearAt s.data j)) := by
  constructor
  · intro hall
    unfold extract_date_from_filename
    cases he : searchFrom s.data 0 s.data.length with
    | none => rfl
    | some j =>
      obtain ⟨h1, -, -⟩ := searchFrom_eq_some s.data j _ _ he
      have := hall j (matchAAt_lt h1)
      rw [this] at h1
      exact absurd h1 (by simp)
  · intro i hi
    have hlt := matchAAt_lt hi
    have hs := searchFrom_isSome s.data i hi s.data.length 0 (Nat.zero_le i) (by omega)
    obtain ⟨j, he⟩ := Option.isSome_iff_exists.mp hs
    obtain ⟨h1, -, h3⟩ := searchFrom_eq_some s.data j _ _ he
    refine ⟨j, h1, fun k hk => h3 k (Nat.zero_le k) hk, ?_⟩
    unfold extract_date_from_filename
    rw [he]

theorem extract_date_from_filename_correct_witness :
    extract_date_from_filename "01_07_2025-31_07_2025" = some (7, 3, 2025) ∧
    extract_date_from_filename "report.xlsx" = none := by
  constructor
  · obtain ⟨j, hj, hleast, he⟩ :=
      (extract_date_from_filename_correct "01_07_2025-31_07_2025").2 0 (by decide)
    have hj0 : j = 0 := by
      by_contra hne
      have h0 : matchAAt "01_07_2025-31_07_2025".data 0 = false :=
        hleast 0 (Nat.pos_of_ne_zero hne)
      exact absurd h0 (by decide)
    subst hj0
    exact he.trans (by decide)
  · exact (extract_date_from_filename_correct "report.xlsx").1 (by decide)

/-- C7 (amended): every successful result of either extractor is a
triple `(month, quarter, year)` whose quarter is derived from the month
by `quarter = (month - 1) // 3 + 1` (Python floor division); whenever
the extracted month field lies in 1–12 the quarter therefore lies in
1–4.  The extractors perform no range validation, so month fields
outside 1–12 do occur (see the counterexample) — the unconditional
`month ∈ 1..12`, `quarter ∈ 1..4` claim is false, only the consistency
formula is unconditional. -/
theorem period_marker_quarter_consistent (s : String) (m q y : Int)
    (h : extract_date_from_filename s = some (m, q, y) ∨
         extract_date_from_brand_analytics_filename s = some (m, q, y)) :
    q = (m - 1).fdiv 3 + 1 ∧ (1 ≤ m ∧ m ≤ 12 → 1 ≤ q ∧ q ≤ 4) := by
  have hq : q = (m - 1).fdiv 3 + 1 := by
    rcases h with h | h
    · unfold extract_date_from_filename at h
      cases he : searchFrom s.data 0 s.data.length with
      | none => rw [he] at h; exact absurd h (by simp)
      | some j =>
        rw [he] at h
        simp only [Option.some.injEq, Prod.mk.injEq] at h
        obtain ⟨h1, h2, h3⟩ := h
        rw [← h2, ← h1]
    · simp only [extract_date_from_brand_analytics_filename] at h
      exact matchBCore_quarter h
  refine ⟨hq, fun hrange => ?_⟩
  obtain ⟨hm1, hm2⟩ := hrange
  subst hq
  interval_cases m <;> exact ⟨by decide, by decide⟩

theorem period_marker_quarter_consistent_witness :
    (3 : Int) = ((7 : Int) - 1).fdiv 3 + 1 ∧
    (1 ≤ (7 : Int) ∧ (7 : Int) ≤ 12 → 1 ≤ (3 : Int) ∧ (3 : Int) ≤ 4) :=
  period_marker_quarter_consistent "01_07_2025-31_07_2025" 7 3 2025 (Or.inl (by decide))

/-- C9: overwrite-mode failure semantics of `update_sheet_data`.  The
operation clears the destination and then writes the new table at row 1;
every outcome is reported as an explicit success flag (exceptions are
caught, none escape).  A clear failure leaves the destination intact, a
write failure occurring after the clear leaves the destination range
empty with no data written (the overwrite is not atomic on error), and
on success the destination holds exactly the new table regardless of
its prior contents. -/
theorem update_sheet_data_failure_semantics (ws : List (List String)) (data : Table) :
    update_sheet_data false true ws data = (false, ws) ∧
    update_sheet_data false false ws data = (false, ws) ∧
    update_sheet_data true false ws data = (false, []) ∧
    update_sheet_data true true ws data = (true, headerRow data :: tableRows data) := by
  refine ⟨rfl, rfl, rfl, ?_⟩
  simp [update_sheet_data, writeAt_nil_zero]

/-! ### Dictionary and association-list lemmas -/

theorem foldl_dictInsert_eq (cols : List String) :
    ∀ acc : List (String × String),
      (cols.map pyLower).Nodup →
      (∀ p ∈ acc, p.1 ∉ cols.map pyLower) →
      cols.foldl (fun d c => dictInsert d (pyLower c) c) acc =
        acc ++ cols.map (fun c => (pyLower c, c)) := by
  induction cols with
  | nil => intro acc _ _; simp
  | cons c cs ih =>
    intro acc hnd hacc
    simp only [List.map_cons, List.nodup_cons] at hnd
    simp only [List.foldl_cons]
    have hany : acc.any (fun p => p.1 == pyLower c) = false := by
      rw [List.any_eq_false]
      intro p hp
      simp only [beq_iff_eq]
      intro heq
      exact hacc p hp (by simp [heq])
    have hstep : dictInsert acc (pyLower c) c = acc ++ [(pyLower c, c)] := by
      simp [dictInsert, hany]
    have hacc' : ∀ p ∈ acc ++ [(pyLower c, c)], p.1 ∉ cs.map pyLower := by
      intro p hp
      rcases List.mem_append.mp hp with hp | hp
      · intro hmem
        exact hacc p hp (by simp [hmem])
      · simp only [List.mem_singleton] at hp
        rw [hp]
        exact hnd.1
    rw [hstep, ih (acc ++ [(pyLower c, c)]) hnd.2 hacc']
    simp

/-- With case-insensitively distinct names, the Python case-folding
dict is just the list of `(lowered, original)` pairs in order. -/
theorem buildLowerDict_eq {cols : List String} (h : (cols.map pyLower).Nodup) :
    buildLowerDict cols = cols.map (fun c => (pyLower c, c)) := by
  simpa [buildLowerDict] using foldl_dictInsert_eq cols [] h (by simp)

theorem lookup_map_lower (cols : List String) (k : String) :
    List.lookup k (cols.map (fun c => (pyLower c, c))) =
      cols.find? (fun c => k == pyLower c) := by
  induction cols with
  | nil => simp
  | cons c cs ih =>
    simp only [List.map_cons]
    by_cases hk : (k == pyLower c) = true
    · simp [List.lookup, List.find?, hk]
    · have hk' : (k == pyLower c) = false := by simpa using hk
      simp [List.lookup, List.find?, hk', ih]

/-- Looking up a key of a keyed map (`fun x => (x, f x)`) that occurs in
the key list returns its image, whatever follows the map. -/
theorem lookup_keyed_map {f : String → List Cell} {hs : List String}
    (rest : List (String × List Cell)) {h : String} (hmem : h ∈ hs) :
    List.lookup h (hs.map (fun x => (x, f x)) ++ rest) = some (f h) := by
  induction hs with
  | nil => cases hmem
  | cons x xs ih =>
    simp only [List.map_cons, List.cons_append]
    by_cases hx : (h == x) = true
    · have hxe : h = x := by simpa using hx
      subst hxe
      simp [List.lookup]
    · have hx' : (h == x) = false := by simpa using hx
      rcases List.mem_cons.mp hmem with he | hmem'
      · exact absurd (by simp [he]) hx
      · simp only [List.lookup, hx']
        exact ih hmem'

/-- On an association list with distinct keys, `find?` at a present key
finds exactly its pair. -/
theorem find?_key_eq {l : List (String × List Cell)} {c : String} {vs : List Cell}
    (hnd : (l.map Prod.fst).Nodup) (hmem : (c, vs) ∈ l) :
    l.find? (fun p => p.1 == c) = some (c, vs) := by
  induction l with
  | nil => cases hmem
  | cons p ps ih =>
    simp only [List.map_cons, List.nodup_cons] at hnd
    rcases List.mem_cons.mp hmem with he | hmem'
    · rw [← he]
      simp [List.find?]
    · have hne : (p.1 == c) = false := by
        simp only [beq_eq_false_iff_ne]
        intro heq
        apply hnd.1
        rw [heq]
        exact List.mem_map_of_mem Prod.fst hmem'
      simp only [List.find?, hne]
      exact ih hnd.2 hmem'

/-- Folding pandas column assignments over pairwise-distinct header
names from an accumulator free of those names just appends one keyed
column per name. -/
theorem foldl_setCol_eq (hs : List String) (F : String → List Cell) :
    ∀ acc : List (String × List Cell),
      hs.Nodup →
      (∀ p ∈ acc, p.1 ∉ hs) →
      hs.foldl (fun d h => setCol d h (F h)) acc = acc ++ hs.map (fun h => (h, F h)) := by
  induction hs with
  | nil => intro acc _ _; simp
  | cons c cs ih =>
    intro acc hnd hacc
    simp only [List.nodup_cons] at hnd
    simp only [List.foldl_cons]
    have hany : acc.any (fun p => p.1 == c) = false := by
      rw [List.any_eq_false]
      intro p hp
      simp only [beq_iff_eq]
      intro heq
      exact hacc p hp (by simp [heq])
    have hstep : setCol acc c (F c) = acc ++ [(c, F c)] := by
      simp [setCol, hany]
    have hacc' : ∀ p ∈ acc ++ [(c, F c)], p.1 ∉ cs := by
      intro p hp
      rcases List.mem_append.mp hp with hp | hp
      · intro hmem
        exact hacc p hp (by simp [hmem])
      · simp only [List.mem_singleton] at hp
        rw [hp]
        exact hnd.1
    rw [hstep, ih (acc ++ [(c, F c)]) hnd.2 hacc']
    simp

/-- Folding pandas column assignments over columns with pairwise
distinct labels, all new to the accumulator, appends them in order. -/
theorem foldl_setCol_pairs_eq (ps : List (String × List Cell)) :
    ∀ acc : List (String × List Cell),
      (ps.map Prod.fst).Nodup →
      (∀ p ∈ acc, ∀ q ∈ ps, p.1 ≠ q.1) →
      ps.foldl (fun d c => setCol d c.1 c.2) acc = acc ++ ps := by
  induction ps with
  | nil => intro acc _ _; simp
  | cons q qs ih =>
    intro acc hnd hacc
    simp only [List.map_cons, List.nodup_cons] at hnd
    simp only [List.foldl_cons]
    have hany : acc.any (fun p => p.1 == q.1) = false := by
      rw [List.any_eq_false]
      intro p hp
      simp only [beq_iff_eq]
      exact hacc p hp q (List.mem_cons_self q qs)
    have hstep : setCol acc q.1 q.2 = acc ++ [q] := by
      simp [setCol, hany]
    have hacc' : ∀ p ∈ acc ++ [q], ∀ r ∈ qs, p.1 ≠ r.1 := by
      intro p hp r hr
      rcases List.mem_append.mp hp with hp | hp
      · exact hacc p hp r (List.mem_cons_of_mem q hr)
      · simp only [List.mem_singleton] at hp
        rw [hp]
        intro he
        apply hnd.1
        rw [he]
        exact List.mem_map_of_mem Prod.fst hr
    rw [hstep, ih (acc ++ [q]) hnd.2 hacc']
    simp

/-- C4 (amended): provided the destination headers are pairwise
case-insensitively distinct, and likewise the uploaded table's column
names, `filter_and_reorder_data` behaves exactly as the specification
words it (`reconcileSpec`): for each destination header in its original
left-to-right order that has a case-insensitive match among the table's
columns, the matching table column's values appear under the
destination's exact-cased name, in destination order; source columns
with no destination match are excluded; zero matches signal `NoMatch`
(`none`).  (Without the distinctness proviso the claim fails: the
Python case-folded dicts collapse case-duplicate headers — see the
counterexample.) -/
theorem filter_and_reorder_data_refines_spec (t : Table) (existing : List String)
    (hex : (existing.map pyLower).Nodup) (hdf : ((colNames t).map pyLower).Nodup) :
    filter_and_reorder_data t existing = reconcileSpec t existing := by
  simp only [filter_and_reorder_data, reconcileSpec]
  rw [buildLowerDict_eq hex, buildLowerDict_eq hdf, List.filterMap_map]
  have hcomp : ((fun p : String × String =>
        (List.lookup p.1 ((colNames t).map (fun c => (pyLower c, c)))).map
          (fun fc => (p.2, fc))) ∘ fun e => (pyLower e, e)) =
      fun e => ((colNames t).find? (fun c => pyLower e == pyLower c)).map
        (fun c => (e, c)) := by
    funext e
    simp only [Function.comp]
    rw [lookup_map_lower]
  rw [hcomp]

theorem filter_and_reorder_data_refines_spec_witness :
    filter_and_reorder_data
        ⟨[("date", [Cell.str "d1"]), ("asin", [Cell.str "a1"]), ("extra", [Cell.str "e1"])]⟩
        ["ASIN", "Sales", "Date"] =
      reconcileSpec
        ⟨[("date", [Cell.str "d1"]), ("asin", [Cell.str "a1"]), ("extra", [Cell.str "e1"])]⟩
        ["ASIN", "Sales", "Date"] ∧
    reconcileSpec
        ⟨[("date", [Cell.str "d1"]), ("asin", [Cell.str "a1"]), ("extra", [Cell.str "e1"])]⟩
        ["ASIN", "Sales", "Date"] =
      some (⟨[("ASIN", [Cell.str "a1"]), ("Date", [Cell.str "d1"])]⟩,
            ["ASIN", "Date"], ["asin", "date"]) :=
  ⟨filter_and_reorder_data_refines_spec _ _ (by decide) (by decide), by decide⟩

/-- C10: in append mode the column matching of `append_to_sheet` is
exact and case-sensitive (`if header in new_data.columns`), unlike the
reconciler's case-insensitive matching.  For a destination header list
without repeated labels (pandas collapses repeated header assignments
into one column, so the sheet's distinct-header convention is assumed)
and an upload with case-insensitively distinct column names, whenever a
destination header `h` and an incoming column `c` differ only in letter
case (and do not otherwise occur on the opposite side): the reordered
table carries, at `h`, a column of empty strings (the destination
column is synthesized empty); the incoming column `c` is appended, with
its values, after the destination's declared columns as if it were a
novel column; and, by contrast, the case-insensitive reconciler does
match `h` against `c` (it returns a result rather than `NoMatch`). -/
theorem append_matching_is_case_sensitive
    (headers : List String) (t : Table) (h c : String)
    (hH : headers.Nodup) (hT : ((colNames t).map pyLower).Nodup)
    (hh : h ∈ headers) (hct : c ∈ colNames t)
    (hlow : pyLower h = pyLower c) (_hne : h ≠ c)
    (hht : h ∉ colNames t) (hch : c ∉ headers) :
    List.lookup h (reorder_columns headers t).cols =
      some (List.replicate (height t) (Cell.str "")) ∧
    (c, fillnaVals (getCol t c)) ∈ (reorder_columns headers t).cols.drop headers.length ∧
    (filter_and_reorder_data t [h]).isSome = true := by
  have hTplain : (colNames t).Nodup := hT.of_map
  have hbase : headers.foldl (fun d x => setCol d x (reorderedCol t x)) [] =
      headers.map (fun x => (x, reorderedCol t x)) := by
    simpa using foldl_setCol_eq headers (reorderedCol t) [] hH (by simp)
  have hextraNodup : ((t.cols.filter (fun p => !headers.contains p.1)).map Prod.fst).Nodup :=
    List.Sublist.nodup (List.Sublist.map Prod.fst (List.filter_sublist t.cols)) hTplain
  have hdisj : ∀ p ∈ headers.map (fun x => (x, reorderedCol t x)),
      ∀ q ∈ t.cols.filter (fun p => !headers.contains p.1), p.1 ≠ q.1 := by
    intro p hp q hq
    obtain ⟨x, hx, rfl⟩ := List.mem_map.mp hp
    have hq2 : q.1 ∉ headers := by
      have hb := (List.mem_filter.mp hq).2
      simpa using hb
    intro he
    apply hq2
    rw [← he]
    exact hx
  have hfull : (t.cols.filter (fun p => !headers.contains p.1)).foldl
        (fun d q => setCol d q.1 q.2) (headers.map (fun x => (x, reorderedCol t x))) =
      headers.map (fun x => (x, reorderedCol t x)) ++
        t.cols.filter (fun p => !headers.contains p.1) :=
    foldl_setCol_pairs_eq _ _ hextraNodup hdisj
  have hcols : (reorder_columns headers t).cols =
      headers.map (fun x => (x, fillnaVals (reorderedCol t x))) ++
        (t.cols.filter (fun p => !headers.contains p.1)).map
          (fun p => (p.1, fillnaVals p.2)) := by
    simp only [reorder_columns]
    rw [hbase, hfull]
    simp [List.map_append, List.map_map, Function.comp]
  refine ⟨?_, ?_, ?_⟩
  · rw [hcols, lookup_keyed_map _ hh]
    have hfind : t.cols.find? (fun p => p.1 == h) = none := by
      rw [List.find?_eq_none]
      intro p hp
      simp only [beq_iff_eq]
      intro he
      exact hht (he ▸ List.mem_map_of_mem Prod.fst hp)
    rw [show reorderedCol t h = List.replicate (height t) (Cell.str "") from by
      simp [reorderedCol, hfind]]
    rw [show fillnaVals (List.replicate (height t) (Cell.str "")) =
        List.replicate (height t) (Cell.str "") from by
      simp [fillnaVals, List.map_replicate, fillnaCell]]
  · rw [hcols]
    rw [show headers.length =
        (headers.map (fun x => (x, fillnaVals (reorderedCol t x)))).length from by simp]
    rw [List.drop_left]
    have hct' : ∃ p ∈ t.cols, p.1 = c := by
      simpa [colNames] using hct
    obtain ⟨⟨p1, p2⟩, hp, hpc⟩ := hct'
    have hp' : (c, p2) ∈ t.cols := by
      rw [← hpc]
      exact hp
    have hget : getCol t c = p2 := by
      simp [getCol, find?_key_eq hTplain hp']
    rw [hget]
    refine List.mem_map.mpr ⟨(c, p2), List.mem_filter.mpr ⟨hp', ?_⟩, rfl⟩
    simp [hch]
  · obtain ⟨fc, hfc⟩ : ∃ fc, List.lookup (pyLower h) (buildLowerDict (colNames t)) = some fc := by
      rw [buildLowerDict_eq hT, lookup_map_lower]
      have hfound : ∃ x ∈ colNames t, (pyLower h == pyLower x) = true :=
        ⟨c, hct, by simp [hlow]⟩
      exact Option.isSome_iff_exists.mp (List.find?_isSome.mpr hfound)
    simp only [filter_and_reorder_data]
    rw [show buildLowerDict [h] = [(pyLower h, h)] from by simp [buildLowerDict, dictInsert]]
    simp [hfc]

theorem append_matching_case_witness :
    List.lookup "ASIN" (reorder_columns ["ASIN"] ⟨[("asin", [Cell.str "a1"])]⟩).cols =
      some (List.replicate (height (⟨[("asin", [Cell.str "a1"])]⟩ : Table)) (Cell.str "")) ∧
    ("asin", fillnaVals (getCol ⟨[("asin", [Cell.str "a1"])]⟩ "asin")) ∈
      (reorder_columns ["ASIN"] ⟨[("asin", [Cell.str "a1"])]⟩).cols.drop
        (["ASIN"] : List String).length ∧
    (filter_and_reorder_data ⟨[("asin", [Cell.str "a1"])]⟩ ["ASIN"]).isSome = true :=
  append_matching_is_case_sensitive ["ASIN"] ⟨[("asin", [Cell.str "a1"])]⟩ "ASIN" "asin"
    (by decide) (by decide) (by decide) (by decide) (by decide) (by decide) (by decide)
    (by decide)

end EngineUS
